import Mathlib

/-!
Verification of the XRAY code-intelligence engine
(`src/xray/core/{indexer,schema,impact}.py`, `src/xray/parsers/{base,python}.py`)
against its natural-language specification.

The Python source is shallowly embedded: SQLite relations become lists of row
structures, SQL queries become filter/sort/take pipelines, and the stateful
indexing pipeline becomes explicit state passing over a `DB` value.  Python
exceptions are modelled with `Except String`.
-/

/-- A single-quote character, used when building the diagnostic strings the
source produces with f-strings. -/
def sQ : String := String.mk [Char.ofNat 39]

/-- `parsers/base.py` `Symbol`: the record a language front-end emits for a
declaration.  `parent_id`, when set, is an index into the symbol list of the
current build (patched to a store id later), exactly as in the source. -/
structure PSymbol where
  name : String
  kind : String
  file : String
  line : Nat
  column : Nat := 0
  end_line : Nat := 0
  signature : Option String := none
  parent_id : Option Nat := none
deriving DecidableEq, Repr

/-- `parsers/base.py` `Edge`: a textual dependency edge emitted by a front-end,
resolved to store ids by the indexer. -/
structure PEdge where
  from_symbol : String
  to_symbol : String
  from_file : Option String := none
  to_file : Option String := none
deriving DecidableEq, Repr

/-- A row of the `symbols` relation (`schema.py`, `initialize_database`). -/
structure SymRow where
  id : Nat
  canonical_id : String
  name : String
  kind : String
  file : String
  line : Nat
  column : Nat
  end_line : Nat
  signature : Option String
  parent_id : Option Nat
deriving DecidableEq, Repr

/-- A row of the `symbol_aliases` relation (`schema.py`). -/
structure AliasRow where
  symbol_id : Nat
  alias_type : String
  alias_name : String
  context_file : Option String
deriving DecidableEq, Repr

/-- A row of the `edges` relation (`schema.py`). -/
structure EdgeRow where
  from_id : Nat
  to_id : Nat
  edge_type : String
  provenance : String
deriving DecidableEq, Repr

/-- The single-file store: the three relations of `initialize_database` plus
the AUTOINCREMENT cursor for `symbols.id` (SQLite keeps it across
`clear_database`, which only issues `DELETE FROM`). -/
structure DB where
  symbols : List SymRow
  aliases : List AliasRow
  edges : List EdgeRow
  nextId : Nat
deriving DecidableEq, Repr

/-- `DatabaseManager.clear_database`: `DELETE FROM` each relation. -/
def clearDatabase (db : DB) : DB :=
  { db with symbols := [], aliases := [], edges := [] }

/-- SQLite `NOCASE` folding: ASCII upper-case letters map to lower case and
every other character is unchanged. -/
def sqliteLowerChar (c : Char) : Char :=
  if 'A' ≤ c ∧ c ≤ 'Z' then Char.ofNat (c.toNat + 32) else c

/-- `NOCASE` folding of a whole string. -/
def sqliteLower (s : String) : String := String.mk (s.data.map sqliteLowerChar)

/-- Substring test on character lists (`needle` occurs inside `hay`). -/
def charsContains (hay needle : List Char) : Bool :=
  hay.tails.any (fun t => needle.isPrefixOf t)

/-- SQLite `alias_name LIKE ?` with pattern `%q%`: case-insensitive (ASCII)
substring match. -/
def likeContains (hay pat : String) : Bool :=
  charsContains (sqliteLower hay).data (sqliteLower pat).data

/-- SQLite `alias_name LIKE ?` with pattern `q%`: case-insensitive (ASCII)
prefix match. -/
def likeStartsWith (hay pat : String) : Bool :=
  (sqliteLower pat).data.isPrefixOf (sqliteLower hay).data

/-- A row of the `find_symbols_by_alias` result set: the joined symbol columns
plus the matching alias and its type. -/
structure FoundRow where
  id : Nat
  canonical_id : String
  name : String
  kind : String
  file : String
  line : Nat
  column : Nat
  end_line : Nat
  signature : Option String
  parent_id : Option Nat
  matched_alias : String
  match_type : String
deriving DecidableEq, Repr

/-- Projection of a joined `(symbols, symbol_aliases)` pair onto the SELECT
list of `find_symbols_by_alias`. -/
def mkFoundRow (s : SymRow) (a : AliasRow) : FoundRow :=
  ⟨s.id, s.canonical_id, s.name, s.kind, s.file, s.line, s.column, s.end_line,
    s.signature, s.parent_id, a.alias_name, a.alias_type⟩

/-- The ORDER BY CASE of `find_symbols_by_alias`: 0 for an exact match
(binary equality), 1 for a case-insensitive prefix match, 2 otherwise. -/
def matchRank (q a : String) : Nat :=
  if a = q then 0 else if likeStartsWith a q then 1 else 2

/-- Strict lexicographic comparison of character lists by code point: the
SQLite BINARY collation on strings (UTF-8 byte order agrees with code-point
order). -/
def clLt : List Char → List Char → Bool
  | [], [] => false
  | [], _ :: _ => true
  | _ :: _, [] => false
  | c :: cs, d :: ds =>
    if c.toNat < d.toNat then true
    else if d.toNat < c.toNat then false
    else clLt cs ds

/-- Strict BINARY comparison of strings. -/
def strLt (a b : String) : Bool := clLt a.data b.data

/-- Non-strict BINARY comparison of strings. -/
def strLe (a b : String) : Bool := !(strLt b a)

/-- Strict comparison of naturals, as a Bool. -/
def natLt (a b : Nat) : Bool := decide (a < b)

/-- Non-strict comparison of naturals, as a Bool. -/
def natLe (a b : Nat) : Bool := decide (a ≤ b)

/-- Lexicographic combination of a strict comparator on the first component
with a comparator on the second: the shape of a two-key SQL ORDER BY. -/
def lexCombine {α β : Type} (ltA : α → α → Bool) (leB : β → β → Bool)
    (x y : α × β) : Bool :=
  if ltA x.1 y.1 then true else if ltA y.1 x.1 then false else leB x.2 y.2

theorem clLt_irrefl : ∀ as, clLt as as = false
  | [] => rfl
  | _ :: cs => by simp [clLt, clLt_irrefl cs]

theorem clLt_trans :
    ∀ as bs cs, clLt as bs = true → clLt bs cs = true → clLt as cs = true
  | [], [], _ => by intro h _; simp [clLt] at h
  | [], _ :: _, [] => by intro _ h; simp [clLt] at h
  | [], _ :: _, _ :: _ => by intro _ _; rfl
  | _ :: _, [], _ => by intro h _; simp [clLt] at h
  | _ :: _, _ :: _, [] => by intro _ h; simp [clLt] at h
  | a :: as, b :: bs, c :: cs => by
    intro h1 h2
    simp only [clLt] at h1 h2 ⊢
    by_cases hab : a.toNat < b.toNat <;> by_cases hbc : b.toNat < c.toNat
    · have hac : a.toNat < c.toNat := by omega
      simp [hac]
    · by_cases hcb : c.toNat < b.toNat
      · simp [hbc, hcb] at h2
      · have hac : a.toNat < c.toNat := by omega
        simp [hac]
    · by_cases hba : b.toNat < a.toNat
      · simp [hab, hba] at h1
      · have hac : a.toNat < c.toNat := by omega
        simp [hac]
    · by_cases hba : b.toNat < a.toNat
      · simp [hab, hba] at h1
      · by_cases hcb : c.toNat < b.toNat
        · simp [hbc, hcb] at h2
        · have hac : ¬ a.toNat < c.toNat := by omega
          have hca : ¬ c.toNat < a.toNat := by omega
          have h1n : clLt as bs = true := by simpa [hab, hba] using h1
          have h2n : clLt bs cs = true := by simpa [hbc, hcb] using h2
          simp [hac, hca, clLt_trans as bs cs h1n h2n]

theorem clLt_connex :
    ∀ as bs, clLt as bs = false → clLt bs as = false → as = bs
  | [], [] => fun _ _ => rfl
  | [], _ :: _ => by intro h _; simp [clLt] at h
  | _ :: _, [] => by intro _ h; simp [clLt] at h
  | a :: as, b :: bs => by
    intro h1 h2
    simp only [clLt] at h1 h2
    by_cases hab : a.toNat < b.toNat
    · simp [hab] at h1
    · by_cases hba : b.toNat < a.toNat
      · simp [hab, hba] at h2
      · have hn : a.toNat = b.toNat := by omega
        have hc : a = b := Char.eq_of_val_eq (UInt32.ext hn)
        have h1n : clLt as bs = false := by simpa [hab, hba] using h1
        have h2n : clLt bs as = false := by simpa [hab, hba] using h2
        rw [hc, clLt_connex as bs h1n h2n]

theorem strLt_irrefl (a : String) : strLt a a = false := clLt_irrefl a.data

theorem strLt_trans (a b c : String) (h1 : strLt a b = true)
    (h2 : strLt b c = true) : strLt a c = true :=
  clLt_trans a.data b.data c.data h1 h2

theorem strLt_connex (a b : String) (h1 : strLt a b = false)
    (h2 : strLt b a = false) : a = b := by
  have hd := clLt_connex a.data b.data h1 h2
  cases a with
  | mk la =>
    cases b with
    | mk lb => simp only [String.data] at hd; rw [hd]

theorem natLt_irrefl (a : Nat) : natLt a a = false := by simp [natLt]

theorem natLt_trans (a b c : Nat) (h1 : natLt a b = true)
    (h2 : natLt b c = true) : natLt a c = true := by
  simp [natLt] at h1 h2 ⊢; omega

theorem natLt_connex (a b : Nat) (h1 : natLt a b = false)
    (h2 : natLt b a = false) : a = b := by
  simp [natLt] at h1 h2; omega

theorem natLe_total (a b : Nat) : natLe a b = true ∨ natLe b a = true := by
  simp [natLe]; omega

theorem natLe_trans (a b c : Nat) (h1 : natLe a b = true)
    (h2 : natLe b c = true) : natLe a c = true := by
  simp [natLe] at h1 h2 ⊢; omega

theorem ltNeg_total {α : Type} (lt : α → α → Bool)
    (hTr : ∀ a b c, lt a b = true → lt b c = true → lt a c = true)
    (hIrr : ∀ a, lt a a = false) (a b : α) :
    (!(lt b a)) = true ∨ (!(lt a b)) = true := by
  by_cases h1 : lt b a = true
  · right
    by_cases h2 : lt a b = true
    · have hh := hTr a b a h2 h1
      rw [hIrr a] at hh
      exact absurd hh (by simp)
    · have h2f : lt a b = false := by simpa using h2
      simp [h2f]
  · have h1f : lt b a = false := by simpa using h1
    left
    simp [h1f]

theorem ltNeg_trans {α : Type} (lt : α → α → Bool)
    (hTr : ∀ a b c, lt a b = true → lt b c = true → lt a c = true)
    (hIrr : ∀ a, lt a a = false)
    (hCx : ∀ a b, lt a b = false → lt b a = false → a = b)
    (a b c : α) (h1 : (!(lt b a)) = true) (h2 : (!(lt c b)) = true) :
    (!(lt c a)) = true := by
  have h1f : lt b a = false := by simpa using h1
  have h2f : lt c b = false := by simpa using h2
  by_cases hca : lt c a = true
  · exfalso
    by_cases hac : lt a c = true
    · have hh := hTr c a c hca hac
      rw [hIrr c] at hh
      exact absurd hh (by simp)
    · by_cases hbc : lt b c = true
      · have hh := hTr b c a hbc hca
        rw [h1f] at hh
        exact absurd hh (by simp)
      · have hbceq : b = c := hCx b c (by simpa using hbc) h2f
        rw [← hbceq] at hca
        rw [h1f] at hca
        exact absurd hca (by simp)
  · have hcaf : lt c a = false := by simpa using hca
    simp [hcaf]

theorem strLe_total (a b : String) : strLe a b = true ∨ strLe b a = true :=
  ltNeg_total strLt strLt_trans strLt_irrefl a b

theorem strLe_trans (a b c : String) (h1 : strLe a b = true)
    (h2 : strLe b c = true) : strLe a c = true :=
  ltNeg_trans strLt strLt_trans strLt_irrefl strLt_connex a b c h1 h2

theorem lexCombine_iff {α β : Type} (ltA : α → α → Bool) (leB : β → β → Bool)
    (hIrr : ∀ a, ltA a a = false)
    (hCx : ∀ a b, ltA a b = false → ltA b a = false → a = b)
    (x y : α × β) :
    lexCombine ltA leB x y = true ↔
      (ltA x.1 y.1 = true ∨ (x.1 = y.1 ∧ leB x.2 y.2 = true)) := by
  unfold lexCombine
  by_cases h1 : ltA x.1 y.1 = true
  · simp [h1]
  · have h1f : ltA x.1 y.1 = false := by simpa using h1
    by_cases h2 : ltA y.1 x.1 = true
    · have hne : x.1 ≠ y.1 := by
        intro he
        rw [he, hIrr y.1] at h2
        exact absurd h2 (by simp)
      simp [h1f, h2, hne]
    · have h2f : ltA y.1 x.1 = false := by simpa using h2
      have heq : x.1 = y.1 := hCx x.1 y.1 h1f h2f
      simp [h1f, h2f, heq, hIrr]

theorem lexCombine_total {α β : Type} (ltA : α → α → Bool) (leB : β → β → Bool)
    (hIrr : ∀ a, ltA a a = false)
    (hTr : ∀ a b c, ltA a b = true → ltA b c = true → ltA a c = true)
    (hCx : ∀ a b, ltA a b = false → ltA b a = false → a = b)
    (hTotB : ∀ a b, leB a b = true ∨ leB b a = true) (x y : α × β) :
    lexCombine ltA leB x y = true ∨ lexCombine ltA leB y x = true := by
  rw [lexCombine_iff ltA leB hIrr hCx, lexCombine_iff ltA leB hIrr hCx]
  by_cases h1 : ltA x.1 y.1 = true
  · exact Or.inl (Or.inl h1)
  · by_cases h2 : ltA y.1 x.1 = true
    · exact Or.inr (Or.inl h2)
    · have heq : x.1 = y.1 :=
        hCx x.1 y.1 (by simpa using h1) (by simpa using h2)
      rcases hTotB x.2 y.2 with hb | hb
      · exact Or.inl (Or.inr ⟨heq, hb⟩)
      · exact Or.inr (Or.inr ⟨heq.symm, hb⟩)

theorem lexCombine_trans {α β : Type} (ltA : α → α → Bool) (leB : β → β → Bool)
    (hIrr : ∀ a, ltA a a = false)
    (hTr : ∀ a b c, ltA a b = true → ltA b c = true → ltA a c = true)
    (hCx : ∀ a b, ltA a b = false → ltA b a = false → a = b)
    (hTrB : ∀ a b c, leB a b = true → leB b c = true → leB a c = true)
    {x y z : α × β} (hxy : lexCombine ltA leB x y = true)
    (hyz : lexCombine ltA leB y z = true) : lexCombine ltA leB x z = true := by
  rw [lexCombine_iff ltA leB hIrr hCx] at hxy hyz ⊢
  rcases hxy with h1 | ⟨h1e, h1b⟩
  · rcases hyz with h2 | ⟨h2e, _⟩
    · exact Or.inl (hTr _ _ _ h1 h2)
    · exact Or.inl (h2e ▸ h1)
  · rcases hyz with h2 | ⟨h2e, h2b⟩
    · exact Or.inl (h1e ▸ h2)
    · exact Or.inr ⟨h1e.trans h2e, hTrB _ _ _ h1b h2b⟩

/-- Sort key of the `find_symbols_by_alias` ORDER BY clause: the match-quality
CASE value, then the raw `alias_type` string, then the symbol name. -/
def foundKey (q : String) (r : FoundRow) : Nat × String × String :=
  (matchRank q r.matched_alias, r.match_type, r.name)

/-- The three-key comparison of `find_symbols_by_alias`. -/
def c6cmp : Nat × String × String → Nat × String × String → Bool :=
  lexCombine natLt (lexCombine strLt strLe)

/-- The ordering implemented by `find_symbols_by_alias`: ascending
lexicographic order on `foundKey`. -/
def c6rel (q : String) (a b : FoundRow) : Prop :=
  c6cmp (foundKey q a) (foundKey q b) = true

instance (q : String) : DecidableRel (c6rel q) :=
  fun _ _ => inferInstanceAs (Decidable (_ = true))

instance (q : String) : IsTotal FoundRow (c6rel q) :=
  ⟨fun a b =>
    lexCombine_total natLt (lexCombine strLt strLe) natLt_irrefl natLt_trans
      natLt_connex
      (fun x y => lexCombine_total strLt strLe strLt_irrefl strLt_trans
        strLt_connex strLe_total x y)
      (foundKey q a) (foundKey q b)⟩

instance (q : String) : IsTrans FoundRow (c6rel q) :=
  ⟨fun _ _ _ h1 h2 =>
    lexCombine_trans natLt (lexCombine strLt strLe) natLt_irrefl natLt_trans
      natLt_connex
      (fun x y z hx hy => lexCombine_trans strLt strLe strLt_irrefl
        strLt_trans strLt_connex strLe_trans hx hy)
      h1 h2⟩

/-- `DatabaseManager.find_symbols_by_alias`: join `symbols` with
`symbol_aliases`, keep rows whose alias contains the query (case-insensitively)
and—when a context file is supplied—whose `context_file` is NULL or equal to
it, project onto the SELECT list, apply DISTINCT, sort by match quality, then
`alias_type`, then symbol name, and apply the LIMIT. -/
def find_symbols_by_alias (db : DB) (q : String) (limit : Nat)
    (context_file : Option String) : List FoundRow :=
  let pairs := db.symbols.flatMap (fun s =>
    (db.aliases.filter (fun a => a.symbol_id = s.id)).map (fun a => (s, a)))
  let kept := pairs.filter (fun p =>
    likeContains p.2.alias_name q &&
      (match context_file with
       | none => true
       | some cf => p.2.context_file = none || p.2.context_file = some cf))
  let rows := (kept.map (fun p => mkFoundRow p.1 p.2)).dedup
  (rows.insertionSort (c6rel q)).take limit

/-- Sort key of `find_symbol_at_location`: `ORDER BY line DESC, column DESC`.
`locGe S T` holds when `S` sorts no later than `T` in that descending order. -/
def locGe (a b : SymRow) : Prop :=
  lexCombine natLt natLe (b.line, b.column) (a.line, a.column) = true

instance : DecidableRel locGe :=
  fun _ _ => inferInstanceAs (Decidable (_ = true))

instance : IsTotal SymRow locGe :=
  ⟨fun a b =>
    lexCombine_total natLt natLe natLt_irrefl natLt_trans natLt_connex
      natLe_total (b.line, b.column) (a.line, a.column)⟩

instance : IsTrans SymRow locGe :=
  ⟨fun _ _ _ h1 h2 =>
    lexCombine_trans natLt natLe natLt_irrefl natLt_trans natLt_connex
      natLe_trans h2 h1⟩

/-- The WHERE clause of `find_symbol_at_location`:
`file = ? AND line <= ? AND (end_line = 0 OR end_line >= ?)`. -/
def coversLoc (file : String) (line : Nat) (s : SymRow) : Bool :=
  s.file = file && s.line ≤ line && (s.end_line = 0 || line ≤ s.end_line)

/-- `DatabaseManager.find_symbol_at_location`: filter by the WHERE clause,
order by `line DESC, column DESC`, and take the first row (LIMIT 1). -/
def find_symbol_at_location (db : DB) (file : String) (line : Nat) :
    Option SymRow :=
  ((db.symbols.filter (coversLoc file line)).insertionSort locGe).head?

/-- A row of the `get_symbol_dependents` / `get_symbol_dependencies` result
set: the joined symbol columns plus the edge columns. -/
structure DepRow where
  id : Nat
  canonical_id : String
  name : String
  kind : String
  file : String
  line : Nat
  column : Nat
  signature : Option String
  edge_type : String
  provenance : String
deriving DecidableEq, Repr

/-- Projection onto the SELECT list of the traversal helpers. -/
def mkDepRow (s : SymRow) (e : EdgeRow) : DepRow :=
  ⟨s.id, s.canonical_id, s.name, s.kind, s.file, s.line, s.column, s.signature,
    e.edge_type, e.provenance⟩

/-- `ORDER BY s.file, s.line` of the traversal helpers. -/
def depLe (a b : DepRow) : Prop :=
  lexCombine strLt natLe (a.file, a.line) (b.file, b.line) = true

instance : DecidableRel depLe :=
  fun _ _ => inferInstanceAs (Decidable (_ = true))

instance : IsTotal DepRow depLe :=
  ⟨fun a b =>
    lexCombine_total strLt natLe strLt_irrefl strLt_trans strLt_connex
      natLe_total (a.file, a.line) (b.file, b.line)⟩

instance : IsTrans DepRow depLe :=
  ⟨fun _ _ _ h1 h2 =>
    lexCombine_trans strLt natLe strLt_irrefl strLt_trans strLt_connex
      natLe_trans h1 h2⟩

/-- `DatabaseManager.get_symbol_dependents`: edges into `symbol_id`, joined on
`from_id`, ordered by `s.file, s.line`. -/
def get_symbol_dependents (db : DB) (symbol_id : Nat) : List DepRow :=
  let rows := (db.edges.filter (fun e => e.to_id = symbol_id)).flatMap (fun e =>
    (db.symbols.filter (fun s => s.id = e.from_id)).map (fun s => mkDepRow s e))
  rows.insertionSort depLe

/-- `DatabaseManager.get_symbol_dependencies`: edges out of `symbol_id`,
joined on `to_id`, ordered by `s.file, s.line`. -/
def get_symbol_dependencies (db : DB) (symbol_id : Nat) : List DepRow :=
  let rows := (db.edges.filter (fun e => e.from_id = symbol_id)).flatMap (fun e =>
    (db.symbols.filter (fun s => s.id = e.to_id)).map (fun s => mkDepRow s e))
  rows.insertionSort depLe

/-- `impact.py` `ImpactNode`. -/
structure ImpactNode where
  id : Nat
  name : String
  kind : String
  file : String
  line : Nat
  depth : Nat
  signature : Option String
deriving DecidableEq, Repr

/-- The impact node built from a dependents row at a given depth
(`analyze_impact`, inner loop). -/
def mkImpactNode (d : DepRow) (depth : Nat) : ImpactNode :=
  ⟨d.id, d.name, d.kind, d.file, d.line, depth, d.signature⟩

/-- Insertion-ordered grouping, exactly the Python-dict pattern used by
`analyze_impact` to group impacts: keys appear in order of first occurrence
and each bucket keeps iteration order. -/
def groupInsert {κ α : Type} [DecidableEq κ] :
    List (κ × List α) → κ → α → List (κ × List α)
  | [], k, x => [(k, [x])]
  | (k0, xs) :: rest, k, x =>
    if k0 = k then (k0, xs ++ [x]) :: rest else (k0, xs) :: groupInsert rest k x

/-- Group a list by a key function, preserving insertion order. -/
def groupByKey {κ α : Type} [DecidableEq κ] (key : α → κ) (l : List α) :
    List (κ × List α) :=
  l.foldl (fun acc x => groupInsert acc (key x) x) []

/-- The breadth-first traversal of `analyze_impact`.  One fuel unit is one
iteration of the `while queue` loop; the fuel supplied by `analyze_impact`
exceeds the number of iterations any run can perform, so exhaustion never
occurs on reachable states.  Note the source guards with `depth > max_depth`
(not `≥`) and enqueues when `depth + 1 <= max_depth`. -/
def bfsImpact (db : DB) (maxDepth : Nat) :
    Nat → List Nat → List (Nat × Nat) → List ImpactNode → List ImpactNode
  | 0, _, _, impacts => impacts
  | _ + 1, _, [], impacts => impacts
  | fuel + 1, visited, (cid, d) :: queue, impacts =>
    if visited.contains cid || maxDepth < d then
      bfsImpact db maxDepth fuel visited queue impacts
    else
      let visited2 := cid :: visited
      let deps := get_symbol_dependents db cid
      let fresh := deps.filter (fun dep => !(visited2.contains dep.id))
      let impacts2 := impacts ++ fresh.map (fun dep => mkImpactNode dep (d + 1))
      let queue2 :=
        if d + 1 ≤ maxDepth then queue ++ fresh.map (fun dep => (dep.id, d + 1))
        else queue
      bfsImpact db maxDepth fuel visited2 queue2 impacts2

/-- Fuel bound for `bfsImpact`: every processed node enqueues at most
`|edges|` entries and at most `1 + |edges|` distinct ids are ever enqueued. -/
def bfsFuel (db : DB) : Nat :=
  (db.edges.length + 1) * (db.edges.length + 1) + 1

/-- `impact.py` `ImpactAnalysisResult`. -/
structure ImpactAnalysisResult where
  symbol_name : String
  total_impacts : Nat
  max_depth : Nat
  impacts_by_depth : List (Nat × List ImpactNode)
  impacts_by_file : List (String × List ImpactNode)
  reasoning : List String
deriving DecidableEq, Repr

/-- Python `f"{count} {kind}{'s' if count > 1 else ''}"` pluralisation. -/
def pluralS (n : Nat) : String := if 1 < n then "s" else ""

/-- Count occurrences per key in insertion order (the Python dict-counter
pattern of the reasoning generators). -/
def countByKey {α : Type} (key : α → String) (l : List α) :
    List (String × Nat) :=
  (groupByKey key l).map (fun g => (g.1, g.2.length))

/-- The `"Affects: ..."` / `"Depends on: ..."` kind summary. -/
def kindSummary (counts : List (String × Nat)) : String :=
  String.intercalate ", "
    (counts.map (fun kc => toString kc.2 ++ " " ++ kc.1 ++ pluralS kc.2))

/-- `XRayImpactAnalyzer._generate_impact_reasoning`. -/
def generate_impact_reasoning (symbol_name : String) (impacts : List ImpactNode)
    (impacts_by_file : List (String × List ImpactNode)) : List String :=
  if impacts.isEmpty then
    ["Safe to modify - no other symbols depend on " ++ sQ ++ symbol_name ++ sQ,
     "This symbol appears to be unused or only used internally"]
  else
    let total := impacts.length
    let totalFiles := impacts_by_file.length
    let risk :=
      if total = 1 then
        "Low risk - only 1 symbol depends on " ++ sQ ++ symbol_name ++ sQ
      else if total ≤ 5 then
        "Medium risk - " ++ toString total ++ " symbols depend on " ++
          sQ ++ symbol_name ++ sQ
      else if total ≤ 20 then
        "High risk - " ++ toString total ++ " symbols depend on " ++
          sQ ++ symbol_name ++ sQ
      else
        "Very high risk - " ++ toString total ++ " symbols depend on " ++
          sQ ++ symbol_name ++ sQ
    let fileLine :=
      if totalFiles = 1 then
        "Impact contained to 1 file: " ++
          (impacts_by_file.head?.map (fun g => g.1)).getD ""
      else
        "Impact spans " ++ toString totalFiles ++
          " files - changes may have wide effects"
    let maxd := impacts.foldl (fun m i => max m i.depth) 0
    let depthLine :=
      if maxd = 1 then "All impacts are direct dependencies (depth 1)"
      else "Has transitive dependencies up to depth " ++ toString maxd
    let kindsLine := "Affects: " ++ kindSummary (countByKey (fun i => i.kind) impacts)
    [risk, fileLine, depthLine, kindsLine]

/-- `XRayImpactAnalyzer.analyze_impact`: resolve the seed with the alias
search (limit 10), breadth-first collect dependents, group by depth and file,
and derive the reasoning lines.  An unresolved seed yields the empty result
with the single `"Symbol '…' not found in codebase"` line. -/
def analyze_impact (db : DB) (symbol_name : String) (max_depth : Nat) :
    ImpactAnalysisResult :=
  match find_symbols_by_alias db symbol_name 10 none with
  | [] =>
    { symbol_name := symbol_name, total_impacts := 0, max_depth := 0,
      impacts_by_depth := [], impacts_by_file := [],
      reasoning :=
        ["Symbol " ++ sQ ++ symbol_name ++ sQ ++ " not found in codebase"] }
  | seed :: _ =>
    let impacts := bfsImpact db max_depth (bfsFuel db) [] [(seed.id, 0)] []
    let byDepth := groupByKey (fun i => i.depth) impacts
    let byFile := groupByKey (fun i => i.file) impacts
    { symbol_name := symbol_name,
      total_impacts := impacts.length,
      max_depth := byDepth.foldl (fun m g => max m g.1) 0,
      impacts_by_depth := byDepth,
      impacts_by_file := byFile,
      reasoning := generate_impact_reasoning symbol_name impacts byFile }

/-- `impact.py` `DependencyAnalysisResult`; the Python `set` of files is
modelled as a duplicate-free list. -/
structure DependencyAnalysisResult where
  symbol_name : String
  direct_dependencies : List (String × String × String × Nat × Option String)
  dependency_files : List String
  reasoning : List String
deriving DecidableEq, Repr

/-- `XRayImpactAnalyzer._generate_dependency_reasoning`. -/
def generate_dependency_reasoning (symbol_name : String)
    (dependencies : List (String × String × String × Nat × Option String))
    (dependency_files : List String) : List String :=
  if dependencies.isEmpty then
    [sQ ++ symbol_name ++ sQ ++ " has no dependencies - it" ++ sQ ++
      "s self-contained"]
  else
    let total := dependencies.length
    let totalFiles := dependency_files.length
    let l1 := sQ ++ symbol_name ++ sQ ++ " depends on " ++ toString total ++
      " symbol" ++ pluralS total
    let l2 :=
      if totalFiles = 1 then
        "All dependencies are in 1 file: " ++ (dependency_files.head?.getD "")
      else
        "Dependencies span " ++ toString totalFiles ++ " files"
    let l3 := "Depends on: " ++
      kindSummary (countByKey (fun d => d.2.1) dependencies)
    [l1, l2, l3]

/-- `XRayImpactAnalyzer.analyze_dependencies`: resolve the seed, take the
single-hop dependency rows, and derive reasoning.  An unresolved seed yields
the empty result with the `"Symbol '…' not found in codebase"` line. -/
def analyze_dependencies (db : DB) (symbol_name : String) :
    DependencyAnalysisResult :=
  match find_symbols_by_alias db symbol_name 10 none with
  | [] =>
    { symbol_name := symbol_name, direct_dependencies := [],
      dependency_files := [],
      reasoning :=
        ["Symbol " ++ sQ ++ symbol_name ++ sQ ++ " not found in codebase"] }
  | seed :: _ =>
    let deps := get_symbol_dependencies db seed.id
    let records := deps.map (fun d => (d.name, d.kind, d.file, d.line, d.signature))
    let files := (deps.map (fun d => d.file)).dedup
    { symbol_name := symbol_name,
      direct_dependencies := records,
      dependency_files := files,
      reasoning := generate_dependency_reasoning symbol_name records files }

/-- `Path.relative_to` as used on POSIX path strings by the indexer: strip a
leading `root ++ "/"` when present. -/
def relTo (root file : String) : String :=
  let pre := root.data ++ ['/']
  if pre.isPrefixOf file.data then String.mk (file.data.drop pre.length) else file

/-- `CanonicalIdGenerator.generate_canonical_id`:
`relative_file ++ ":" ++ (parent.name ++ "." )? ++ name`. -/
def generate_canonical_id (s : PSymbol) (parent : Option PSymbol)
    (root : String) : String :=
  let fp := relTo root s.file
  let hn := match parent with
    | some p => p.name ++ "." ++ s.name
    | none => s.name
  fp ++ ":" ++ hn

/-- An alias record before the `symbol_id` is attached
(`generate_all_aliases` output dictionaries). -/
structure AliasDict where
  alias_type : String
  alias_name : String
  context_file : Option String
deriving DecidableEq, Repr

/-- `CanonicalIdGenerator.generate_all_aliases`: canonical (no context),
simple (declaring file), qualified when a parent exists, and an extra
`import` alias for import symbols with a truthy context file. -/
def generate_all_aliases (s : PSymbol) (parent : Option PSymbol) (root : String)
    (context_file : String) : List AliasDict :=
  [⟨"canonical", generate_canonical_id s parent root, none⟩,
   ⟨"simple", s.name, some context_file⟩] ++
  (match parent with
   | some p => [⟨"qualified", p.name ++ "." ++ s.name, some context_file⟩]
   | none => []) ++
  (if s.kind = "import" ∧ context_file ≠ "" then
    [⟨"import", s.name, some context_file⟩]
  else [])

/-- Python truthiness of an optional string (`if class_name:`): false for
`None` and for the empty string. -/
def optTruthy : Option String → Bool
  | none => false
  | some s => !(s == "")

/-- An ancestor node as seen by `_find_enclosing_function`: its tree-sitter
node type and the text of its first `identifier` child, if any. -/
structure AncNode where
  ntype : String
  ident : Option String
deriving DecidableEq, Repr

/-- The `while current:` loop of `PythonParser._find_enclosing_function`,
walking the ancestor chain (innermost first) with the `class_name`
accumulator.  A `function_definition` returns its name, prefixed with
`class_name` only when one was already seen further down; running out of
ancestors returns the `"<module>"` sentinel when no class was seen and `None`
otherwise. -/
def findEnclosingGo : List AncNode → Option String → Option String
  | [], cls => if cls = none then some "<module>" else none
  | a :: rest, cls =>
    if a.ntype = "function_definition" then
      match a.ident with
      | some fn =>
        if optTruthy cls then some ((cls.getD "") ++ "." ++ fn) else some fn
      | none => if cls = none then some "<module>" else none
    else if a.ntype = "class_definition" ∧ optTruthy cls = false then
      findEnclosingGo rest (match a.ident with
        | some t => some t
        | none => cls)
    else findEnclosingGo rest cls

/-- `PythonParser._find_enclosing_function`, starting from the parent of the
reference site. -/
def find_enclosing_function (ancestors : List AncNode) : Option String :=
  findEnclosingGo ancestors none

/-- First character of a string, if any. -/
def strHead : String → Option Char
  | s => s.data.head?

/-- Python `str.lower()` on identifier text (simple case mapping). -/
def pyLower (s : String) : List Char := s.data.map Char.toLower

/-- `XRayIndexer._determine_edge_type`: the textual heuristic.  `'('` in the
target name means `call`; the word `import` inside the lower-cased source name
means `import`; a capitalised target means `instantiate`; otherwise `access`.
Indexing `edge.to_symbol[0]` raises on an empty target, modelled as `none`. -/
def determine_edge_type (e : PEdge) : Option String :=
  if e.to_symbol.data.contains '(' then some "call"
  else if charsContains (pyLower e.from_symbol) "import".data then
    some "import"
  else
    match e.to_symbol.data with
    | [] => none
    | c :: _ => if c.isUpper then some "instantiate" else some "access"

/-- `XRayIndexer._resolve_symbol_id_by_alias`: empty names and the
`"<module>"` sentinel resolve to nothing; otherwise the first alias-search
match (limit 1) supplies the id. -/
def resolve_symbol_id_by_alias (db : DB) (symbol_name : String)
    (context_file : Option String) : Option Nat :=
  if symbol_name = "" ∨ symbol_name = "<module>" then none
  else
    match find_symbols_by_alias db symbol_name 1 context_file with
    | [] => none
    | m :: _ => some m.id

/-- An entry yielded by `Path.rglob('*')` during the walk: a path and whether
it is a regular file. -/
structure FsEntry where
  path : String
  isFile : Bool
deriving DecidableEq, Repr

/-- The `NameError` message raised inside `find_source_files`. -/
def nameErrorSys : String := "name " ++ sQ ++ "sys" ++ sQ ++ " is not defined"

/-- `LanguageDetector.find_source_files`: iterates `root.rglob('*')`.  The
first statement of the loop body is
`print(f"Found file: {file_path}", file=sys.stderr)`, and `base.py` never
imports `sys`, so the first iteration raises `NameError`; only an empty
iteration reaches `return sorted(source_files)` (with the empty list). -/
def find_source_files (entries : List FsEntry) : Except String (List String) :=
  match entries with
  | [] => Except.ok []
  | _ :: _ => Except.error nameErrorSys

/-- A symbol record staged for `insert_symbols_bulk` (`build_index`, first
pass: `parent_id` is always `None` here). -/
structure SymRecord where
  canonical_id : String
  name : String
  kind : String
  file : String
  line : Nat
  column : Nat
  end_line : Nat
  signature : Option String
deriving DecidableEq, Repr

/-- Attach a store id to a staged record. -/
def recordToRow (r : SymRecord) (id : Nat) : SymRow :=
  ⟨id, r.canonical_id, r.name, r.kind, r.file, r.line, r.column, r.end_line,
    r.signature, none⟩

/-- `DatabaseManager.insert_symbols_bulk`: append one row per record, ids
assigned by AUTOINCREMENT, and return the assigned ids. -/
def insert_symbols_bulk (db : DB) (records : List SymRecord) :
    DB × List Nat :=
  let ids := (List.range records.length).map (fun i => db.nextId + i)
  let rows := List.zipWith recordToRow records ids
  ({ db with symbols := db.symbols ++ rows,
             nextId := db.nextId + records.length }, ids)

/-- `DatabaseManager.insert_aliases_bulk`: plain appends (the table has its
own surrogate key, so `INSERT OR IGNORE` never skips). -/
def insert_aliases_bulk (db : DB) (rows : List AliasRow) : DB :=
  { db with aliases := db.aliases ++ rows }

/-- The `UPDATE symbols SET parent_id = ? WHERE id = ?` batch of the second
pass; each pair is `(parent_store_id, row_id)`. -/
def patchParents (db : DB) (updates : List (Nat × Nat)) : DB :=
  { db with symbols := (updates.foldl
      (fun syms u => syms.map (fun s =>
        if s.id = u.2 then { s with parent_id := some u.1 } else s))
      db.symbols) }

/-- One `INSERT OR IGNORE` into `edges`: skipped when a row with the same
`(from_id, to_id, edge_type)` primary key already exists. -/
def edgeInsertStep (acc : List EdgeRow) (t : EdgeRow) : List EdgeRow :=
  if acc.any (fun r => r.from_id = t.from_id ∧ r.to_id = t.to_id ∧
      r.edge_type = t.edge_type) then acc
  else acc ++ [t]

/-- `DatabaseManager.insert_edges_bulk`: `INSERT OR IGNORE` under the
`(from_id, to_id, edge_type)` primary key. -/
def insert_edges_bulk (db : DB) (tuples : List EdgeRow) : DB :=
  { db with edges := tuples.foldl edgeInsertStep db.edges }

/-- The outcome of `registry.parse_file` for one discovered file, run under
the per-file `try`/`except` of `build_index`. -/
structure ParseOutcome where
  file : String
  result : Except String (List PSymbol × List PEdge)
deriving Repr

/-- The accumulator of the per-file loop of `build_index` (lines 111-128). -/
structure ProcState where
  symbols : List PSymbol
  edges : List PEdge
  filesProcessed : Nat
  errors : List String
deriving DecidableEq, Repr

/-- The per-file loop of `build_index`: a file that parses to a nonempty
symbol list contributes its symbols and edges and bumps the counter; a file
that parses to no symbols contributes nothing; a raising file appends an
`"Error processing …"` message and the loop continues. -/
def processParses : List ParseOutcome → ProcState
  | [] => ⟨[], [], 0, []⟩
  | p :: rest =>
    let st := processParses rest
    match p.result with
    | Except.ok (syms, edges) =>
      if syms.isEmpty then st
      else ⟨syms ++ st.symbols, edges ++ st.edges, st.filesProcessed + 1,
            st.errors⟩
    | Except.error e =>
      ⟨st.symbols, st.edges, st.filesProcessed,
        ("Error processing " ++ p.file ++ ": " ++ e) :: st.errors⟩

/-- The parent of symbol `s` for canonical-id purposes: `all_symbols[p]` when
`s.parent_id` is a valid list index (`build_index`, both passes). -/
def parentOf (allSymbols : List PSymbol) (s : PSymbol) : Option PSymbol :=
  match s.parent_id with
  | some p => allSymbols[p]?
  | none => none

/-- Stage the staged record for one extracted symbol (`build_index`,
lines 136-158): canonical id from the identity service, file made relative,
`parent_id` left `None`. -/
def stageRecord (root : String) (allSymbols : List PSymbol) (s : PSymbol) :
    SymRecord :=
  ⟨generate_canonical_id s (parentOf allSymbols s) root, s.name, s.kind,
    relTo root s.file, s.line, s.column, s.end_line, s.signature⟩

/-- `XRayIndexer._create_cross_file_edges_new`: group the extracted symbols by
relative file, and for every `import` symbol link it (with an `import` edge)
to the first alias-search match that is a class or function in a different
file. -/
def create_cross_file_edges (db : DB) (root : String)
    (pairs : List (PSymbol × Nat)) : List EdgeRow :=
  (groupByKey (fun pr => relTo root pr.1.file) pairs).flatMap (fun g =>
    (g.2.filter (fun pr => pr.1.kind = "import")).filterMap (fun pr =>
      match (find_symbols_by_alias db pr.1.name 10 none).find? (fun m =>
          (m.kind = "class" || m.kind = "function") && m.file ≠ g.1) with
      | some m => some ⟨pr.2, m.id, "import",
          "import " ++ pr.1.name ++ " from " ++ m.file⟩
      | none => none))

/-- Resolution and typing of one parser edge (`build_index`, lines 204-212):
both endpoints must resolve to truthy, distinct ids; the stored type comes
from `_determine_edge_type` and the provenance from the two names. -/
def resolveEdgeTuple (db : DB) (e : PEdge) : Option EdgeRow :=
  match resolve_symbol_id_by_alias db e.from_symbol e.from_file,
        resolve_symbol_id_by_alias db e.to_symbol e.to_file with
  | some f, some t =>
    if f ≠ 0 ∧ t ≠ 0 ∧ f ≠ t then
      (determine_edge_type e).map (fun ty =>
        ⟨f, t, ty, e.from_symbol ++ " -> " ++ e.to_symbol⟩)
    else none
  | _, _ => none

/-- `IndexingResult` (`indexer.py`); the wall-clock duration and on-disk size
are outside the model. -/
structure IndexingResult where
  success : Bool
  files_indexed : Nat
  symbols_found : Nat
  edges_created : Nat
  errors : List String
deriving DecidableEq, Repr

/-- The `AttributeError` message raised by step 9 of `build_index`:
`DatabaseManager` defines no `set_metadata` method anywhere in the source. -/
def setMetadataError : String :=
  sQ ++ "DatabaseManager" ++ sQ ++ " object has no attribute " ++ sQ ++
    "set_metadata" ++ sQ

/-- `self.db.set_metadata(...)` (`build_index`, line 230): the method does not
exist on `DatabaseManager`, so the call raises `AttributeError`. -/
def set_metadata_call : Except String Unit := Except.error setMetadataError

/-- Steps 3-5 of the pipeline on the extracted symbols (`build_index`,
lines 130-197): stage records with canonical ids, bulk-insert them, generate
and insert the aliases, and patch `parent_id` through the
list-index-to-store-id map.  Returns the store and the assigned ids. -/
def buildDb3 (root : String) (allSymbols : List PSymbol) (db0 : DB) :
    DB × List Nat :=
  let records := allSymbols.map (stageRecord root allSymbols)
  let ins := insert_symbols_bulk db0 records
  let aliasRows := (allSymbols.zip ins.2).flatMap (fun pr =>
    (generate_all_aliases pr.1 (parentOf allSymbols pr.1) root
      pr.1.file).map (fun a =>
        AliasRow.mk pr.2 a.alias_type a.alias_name a.context_file))
  let db2 := insert_aliases_bulk ins.1 aliasRows
  let updates := (List.range allSymbols.length).filterMap (fun i =>
    match allSymbols[i]? with
    | some s =>
      match s.parent_id with
      | some p =>
        match ins.2[p]?, ins.2[i]? with
        | some pid, some sid => some (pid, sid)
        | _, _ => none
      | none => none
    | none => none)
  (patchParents db2 updates, ins.2)

/-- Step 7-8 of the pipeline (`build_index`, lines 202-219): resolve the
parser edges, add the cross-file import edges, and deduplicate. -/
def buildTuples (db3 : DB) (root : String) (allSymbols : List PSymbol)
    (ids : List Nat) (pedges : List PEdge) : List EdgeRow :=
  ((pedges.filterMap (resolveEdgeTuple db3)) ++
    create_cross_file_edges db3 root (allSymbols.zip ids)).dedup

/-- `build_index` from the point where the source files are discovered
(lines 100-253): the early return on no files, the per-file loop, symbol
staging and bulk insert, alias generation, parent patching, edge resolution,
cross-file import edges, deduplication, edge insert, and then the metadata
step — whose `AttributeError` lands in the outer `except`, producing the
failure result (the store keeps everything committed so far). -/
def build_index_core (root : String) (parses : List ParseOutcome) (db0 : DB) :
    IndexingResult × DB :=
  if parses.isEmpty then
    (⟨true, 0, 0, 0, ["No supported source files found"]⟩, db0)
  else
    let st := processParses parses
    let bd := buildDb3 root st.symbols db0
    let tuples := buildTuples bd.1 root st.symbols bd.2 st.edges
    let db4 := insert_edges_bulk bd.1 tuples
    match set_metadata_call with
    | Except.error e =>
      (⟨false, 0, 0, 0, ["Indexing failed: " ++ e]⟩, db4)
    | Except.ok _ =>
      (⟨true, st.filesProcessed, st.symbols.length, tuples.length,
        st.errors⟩, db4)

/-- `XRayIndexer.build_index` end to end: clear the store, discover files via
the walker (whose `NameError` is caught by the outer `except`, yielding the
failure result), dispatch each discovered file to its front-end, and run the
pipeline. -/
def build_index (root : String) (entries : List FsEntry)
    (parse : String → Except String (List PSymbol × List PEdge)) (db0 : DB) :
    IndexingResult × DB :=
  let db1 := clearDatabase db0
  match find_source_files entries with
  | Except.error e =>
    (⟨false, 0, 0, 0, ["Indexing failed: " ++ e]⟩, db1)
  | Except.ok files =>
    build_index_core root (files.map (fun f => ⟨f, parse f⟩)) db1

/-- An empty, freshly initialised store. -/
def exEmptyDB : DB := ⟨[], [], [], 1⟩

/-- A two-symbol store for the depth-0 impact experiment:
`authenticate_user` (id 2) holds an edge to `check_password` (id 1). -/
def exDB3 : DB :=
  ⟨[⟨1, "auth.py:check_password", "check_password", "function", "auth.py", 7, 0,
      7, none, none⟩,
    ⟨2, "auth.py:UserService.authenticate_user", "authenticate_user", "method",
      "auth.py", 2, 8, 5, none, none⟩],
   [⟨1, "simple", "check_password", some "auth.py"⟩,
    ⟨2, "simple", "authenticate_user", some "auth.py"⟩],
   [⟨2, 1, "access", "authenticate_user -> check_password"⟩],
   3⟩

/-- The seed row `find_symbols_by_alias exDB3 "check_password" 10 none`
returns. -/
def exSeed3 : FoundRow :=
  ⟨1, "auth.py:check_password", "check_password", "function", "auth.py", 7, 0,
    7, none, none, "check_password", "simple"⟩

/-- A store holding one `import`-typed alias and one `qualified`-typed alias
both containing the substring `foo`. -/
def exDB6 : DB :=
  ⟨[⟨1, "a.py:zza", "zza", "function", "a.py", 1, 0, 2, none, none⟩,
    ⟨2, "b.py:C.bbb", "bbb", "method", "b.py", 3, 4, 5, none, none⟩],
   [⟨1, "import", "xfoo1", some "a.py"⟩,
    ⟨2, "qualified", "xfoo2", some "b.py"⟩],
   [], 3⟩

/-- An import symbol row: `end_line` keeps its dataclass default 0, as for
every `kind='import'` symbol the Python front-end emits. -/
def exSym7 : SymRow := ⟨1, "a.py:os", "os", "import", "a.py", 5, 0, 0, none, none⟩

/-- A store whose only symbol is the import row `exSym7`. -/
def exDB7 : DB := ⟨[exSym7], [], [], 2⟩

/-- The edge the Python front-end emits for the call site
`check_password(p)` inside `authenticate_user`: a call-syntax reference whose
target is the bare callee name. -/
def exCallEdge : PEdge :=
  ⟨"authenticate_user", "check_password", some "auth.py", none⟩

/-- The ancestor chain of a call node inside the method
`authenticate_user` of class `UserService`: the innermost
`function_definition` is met strictly before the `class_definition`. -/
def exMethodAncestors : List AncNode :=
  [⟨"argument_list", none⟩, ⟨"call", none⟩, ⟨"return_statement", none⟩,
   ⟨"block", none⟩, ⟨"function_definition", some "authenticate_user"⟩,
   ⟨"block", none⟩, ⟨"class_definition", some "UserService"⟩,
   ⟨"module", none⟩]

/-- A directory scan with a single supported source file in it. -/
def exEntries : List FsEntry := [⟨"r/auth.py", true⟩]

/-- A parse outcome with one extracted symbol, as the front-end would deliver
for `r/auth.py`. -/
def exParseOne : ParseOutcome :=
  ⟨"r/auth.py", Except.ok
    ([⟨"check_password", "function", "r/auth.py", 7, 4, 7,
        some "def check_password(p)", none⟩], [])⟩

/-- The amended edge-type classification for targets that are bare names
(no parenthesis in `to_symbol`): `import` when the lower-cased source name
contains the word `import`, `instantiate` when the target starts with an
upper-case letter, `access` otherwise. -/
def edge_type_of_bare (e : PEdge) : String :=
  if charsContains (pyLower e.from_symbol) "import".data then "import"
  else if ((e.to_symbol.data.head?.getD ' ').isUpper) then "instantiate"
  else "access"

/-- The alias-type precedence the claim asserts for `find_symbols_by_alias`:
`canonical` before `qualified` before `simple` before `import`. -/
def claimTypeRank : String → Nat
  | "canonical" => 0
  | "qualified" => 1
  | "simple" => 2
  | "import" => 3
  | _ => 4

/-- The ordering claimed in the spec for `find_symbols_by_alias`: match
quality, then `canonical < qualified < simple < import`, then symbol name. -/
def c6_claim_rel (q : String) (a b : FoundRow) : Prop :=
  lexCombine natLt (lexCombine natLt strLe)
    (matchRank q a.matched_alias, claimTypeRank a.match_type, a.name)
    (matchRank q b.matched_alias, claimTypeRank b.match_type, b.name) = true

instance (q : String) : DecidableRel (c6_claim_rel q) :=
  fun a b => inferInstanceAs (Decidable (_ = true))

theorem bfs_queue_nil (db : DB) (md fuel : Nat) (vis : List Nat)
    (imp : List ImpactNode) : bfsImpact db md fuel vis [] imp = imp := by
  cases fuel <;> rfl

theorem bfs_depth_zero (db : DB) (fuel sid : Nat) :
    bfsImpact db 0 (fuel + 1) [] [(sid, 0)] [] =
      ((get_symbol_dependents db sid).filter
        (fun d => !((sid :: ([] : List Nat)).contains d.id))).map
        (fun d => mkImpactNode d 1) := by
  show bfsImpact db 0 (fuel + 1) [] ((sid, 0) :: []) [] = _
  rw [bfsImpact]
  simp [bfs_queue_nil]

/-- C1: the spec claims every build over a tree with at least one supported
source file completes step 9 (metadata recording) and returns a successful
result.  The code cannot: `find_source_files` raises `NameError` (no `sys`
import) on any nonempty tree, and even past that point step 9 calls
`DatabaseManager.set_metadata`, a method that does not exist, so the outer
`except` always returns the failure result and no metadata is recorded. -/
theorem c1_build_never_completes :
    (build_index "r" exEntries (fun _ => Except.ok ([], [])) exEmptyDB).1 =
      ⟨false, 0, 0, 0, ["Indexing failed: " ++ nameErrorSys]⟩ ∧
    (build_index_core "r" [exParseOne] exEmptyDB).1 =
      ⟨false, 0, 0, 0, ["Indexing failed: " ++ setMetadataError]⟩ := by
  constructor
  · rfl
  · rfl

/-- C2: the spec claims the walker returns the sorted admissible files and
never fails; in the code the first statement of the `rglob` loop prints to
`sys.stderr` while `base.py` never imports `sys`, so the walk over any tree
with at least one entry raises `NameError` instead of returning. -/
theorem c2_walker_raises :
    find_source_files exEntries = Except.error nameErrorSys ∧
    find_source_files [] = Except.ok [] := by
  constructor
  · rfl
  · rfl

/-- C3 counterexample: the claim says `impact(name, 0)` has an empty impact
list whenever the name resolves.  In `exDB3` the name `check_password`
resolves, yet the result at `max_depth = 0` contains its direct dependent:
the guard is `depth > max_depth`, so depth-1 nodes are still emitted. -/
theorem c3_counterexample :
    find_symbols_by_alias exDB3 "check_password" 10 none ≠ [] ∧
    (analyze_impact exDB3 "check_password" 0).total_impacts ≠ 0 := by
  constructor
  · decide
  · decide

/-- C3 amended: at `max_depth = 0` the traversal performs exactly one
expansion step, so the impact list consists of the seed's direct dependents
(those whose id differs from the seed id), each at depth 1; it is empty only
when the seed has no dependents. -/
theorem c3_amended (db : DB) (name : String) (seed : FoundRow)
    (rest : List FoundRow)
    (h : find_symbols_by_alias db name 10 none = seed :: rest) :
    (analyze_impact db name 0).total_impacts =
      ((get_symbol_dependents db seed.id).filter
        (fun d => d.id ≠ seed.id)).length := by
  unfold analyze_impact
  rw [h]
  simp only [bfsFuel]
  rw [bfs_depth_zero]
  simp only [List.length_map]
  congr 1
  apply List.filter_congr
  intro d _
  simp

/-- C3 witness: the amended statement evaluated on `exDB3`. -/
theorem c3_amended_witness :
    (analyze_impact exDB3 "check_password" 0).total_impacts =
      ((get_symbol_dependents exDB3 exSeed3.id).filter
        (fun d => d.id ≠ exSeed3.id)).length :=
  c3_amended exDB3 "check_password" exSeed3 [] (by decide)

/-- C4 counterexample: the claim says an edge arising from call syntax is
typed `call`.  The stored type is `_determine_edge_type`, a textual
heuristic: the call edge `authenticate_user -> check_password` (a bare callee
name, as the front-end always emits) is typed `access`, not `call`. -/
theorem c4_counterexample :
    determine_edge_type exCallEdge ≠ some "call" ∧
    determine_edge_type exCallEdge = some "access" := by
  constructor
  · decide
  · decide

/-- C4 amended: the stored edge type is the textual heuristic of
`_determine_edge_type`: `call` only if the target name contains `'('` (which
front-end-emitted bare names never do); otherwise `import` when the
lower-cased source name contains the word `import`, `instantiate` when the
target starts with an upper-case letter, and `access` otherwise. -/
theorem c4_amended (e : PEdge) (h1 : e.to_symbol.data ≠ [])
    (h2 : e.to_symbol.data.contains '(' = false) :
    determine_edge_type e = some (edge_type_of_bare e) := by
  unfold determine_edge_type edge_type_of_bare
  rw [h2]
  cases hdata : e.to_symbol.data with
  | nil => exact absurd hdata h1
  | cons c cs =>
    by_cases hi : charsContains (pyLower e.from_symbol) "import".data
    · simp [hi]
    · simp only [hi, Bool.false_eq_true, if_false, hdata, List.head?_cons,
        Option.getD_some]
      by_cases hu : c.isUpper <;> simp [hu]

/-- C4 witness: the amended classification evaluated on the call edge. -/
theorem c4_amended_witness :
    determine_edge_type exCallEdge = some (edge_type_of_bare exCallEdge) :=
  c4_amended exCallEdge (by decide) (by decide)

/-- C5 counterexample: the claim says a site inside a method attributes to
`"Class.method"`.  Walking up from a call inside
`UserService.authenticate_user`, the innermost `function_definition` is
reached while `class_name` is still unset, so the source returns the bare
method name. -/
theorem c5_counterexample :
    find_enclosing_function exMethodAncestors ≠
      some "UserService.authenticate_user" ∧
    find_enclosing_function exMethodAncestors = some "authenticate_user" := by
  constructor
  · decide
  · decide

theorem findEnclosingGo_skip :
    ∀ (pre : List AncNode) (fn : String) (rest : List AncNode),
    (∀ a ∈ pre, a.ntype ≠ "function_definition" ∧
      a.ntype ≠ "class_definition") →
    findEnclosingGo (pre ++ AncNode.mk "function_definition" (some fn) :: rest)
      none = some fn
  | [], fn, rest, _ => by rfl
  | a :: pre, fn, rest, hpre => by
    have ha := hpre a (List.mem_cons_self a pre)
    have ih := findEnclosingGo_skip pre fn rest
      (fun x hx => hpre x (List.mem_cons_of_mem a hx))
    simp only [List.cons_append]
    rw [findEnclosingGo]
    simp [ha.1, ha.2, ih]

/-- C5 amended: a reference site whose upward walk meets a
`function_definition` before any `class_definition` (every ordinary
method-body or function-body site) is attributed to the bare function name —
`"Class.method"` never arises for method bodies; and an edge attributed to
the `"<module>"` sentinel is discarded by `_resolve_symbol_id_by_alias`. -/
theorem c5_amended (pre : List AncNode) (fn : String) (rest : List AncNode)
    (db : DB) (cf : Option String)
    (hpre : ∀ a ∈ pre, a.ntype ≠ "function_definition" ∧
      a.ntype ≠ "class_definition") :
    find_enclosing_function
      (pre ++ AncNode.mk "function_definition" (some fn) :: rest) = some fn ∧
    resolve_symbol_id_by_alias db "<module>" cf = none := by
  constructor
  · exact findEnclosingGo_skip pre fn rest hpre
  · unfold resolve_symbol_id_by_alias
    simp

/-- C5 witness: the amended statement evaluated on a one-step ancestor
chain and the empty store. -/
theorem c5_amended_witness :
    find_enclosing_function
      ([AncNode.mk "block" none] ++
        AncNode.mk "function_definition" (some "f") :: []) = some "f" ∧
    resolve_symbol_id_by_alias exEmptyDB "<module>" none = none :=
  c5_amended [AncNode.mk "block" none] "f" [] exEmptyDB none (by decide)

/-- C9 counterexample: the claim quotes the reasoning line as
`"symbol '…' not found in codebase"`; the source writes the line with a
capital S, so the claimed string never appears. -/
theorem c9_counterexample :
    (analyze_impact exEmptyDB "ghost" 5).reasoning ≠
      ["symbol " ++ sQ ++ "ghost" ++ sQ ++ " not found in codebase"] := by
  decide

/-- C9 amended: when the alias lookup yields no match, both the impact and
the dependency queries return the empty result whose reasoning is the single
line `"Symbol '…' not found in codebase"` (capital S, queried name
interpolated); no error is raised. -/
theorem c9_amended (db : DB) (name : String) (d : Nat)
    (h : find_symbols_by_alias db name 10 none = []) :
    analyze_impact db name d =
      ⟨name, 0, 0, [], [],
        ["Symbol " ++ sQ ++ name ++ sQ ++ " not found in codebase"]⟩ ∧
    analyze_dependencies db name =
      ⟨name, [], [],
        ["Symbol " ++ sQ ++ name ++ sQ ++ " not found in codebase"]⟩ := by
  constructor
  · unfold analyze_impact
    rw [h]
  · unfold analyze_dependencies
    rw [h]

/-- C9 witness: the amended statement evaluated on the empty store. -/
theorem c9_amended_witness :
    analyze_impact exEmptyDB "ghost" 5 =
      ⟨"ghost", 0, 0, [], [],
        ["Symbol " ++ sQ ++ "ghost" ++ sQ ++ " not found in codebase"]⟩ ∧
    analyze_dependencies exEmptyDB "ghost" =
      ⟨"ghost", [], [],
        ["Symbol " ++ sQ ++ "ghost" ++ sQ ++ " not found in codebase"]⟩ :=
  c9_amended exEmptyDB "ghost" 5 (by decide)

/-- C10: the per-file loop counts exactly the files whose extraction produced
at least one symbol; a file that parses to zero symbols is skipped silently —
no error entry, no symbols, no edges — and a raising file contributes only
its error line. -/
theorem c10_zero_symbol_files (parses : List ParseOutcome) :
    (processParses parses).filesProcessed =
      parses.countP (fun p => match p.result with
        | Except.ok pr => !pr.1.isEmpty
        | Except.error _ => false) ∧
    (processParses parses).symbols =
      parses.flatMap (fun p => match p.result with
        | Except.ok pr => if pr.1.isEmpty then [] else pr.1
        | Except.error _ => []) ∧
    (processParses parses).edges =
      parses.flatMap (fun p => match p.result with
        | Except.ok pr => if pr.1.isEmpty then [] else pr.2
        | Except.error _ => []) ∧
    (processParses parses).errors =
      parses.filterMap (fun p => match p.result with
        | Except.ok _ => none
        | Except.error e =>
          some ("Error processing " ++ p.file ++ ": " ++ e)) := by
  induction parses with
  | nil => exact ⟨rfl, rfl, rfl, rfl⟩
  | cons p rest ih =>
    obtain ⟨ih1, ih2, ih3, ih4⟩ := ih
    rcases p with ⟨f, res⟩
    rcases res with e | pr
    · simp [processParses, List.countP_cons, ih1, ih2, ih3, ih4]
    · rcases pr with ⟨syms, edges⟩
      by_cases hs : syms.isEmpty
      · have hnil : syms = [] := by simpa using hs
        subst hnil
        simp [processParses, List.countP_cons, ih1, ih2, ih3, ih4]
      · have hne : syms ≠ [] := by simpa using hs
        simp [processParses, List.countP_cons, hs, hne, ih1, ih2, ih3, ih4]

/-- The `import`-typed result row of `find_symbols_by_alias exDB6 "foo"`. -/
def exRow6imp : FoundRow :=
  ⟨1, "a.py:zza", "zza", "function", "a.py", 1, 0, 2, none, none,
    "xfoo1", "import"⟩

/-- The `qualified`-typed result row of `find_symbols_by_alias exDB6 "foo"`. -/
def exRow6qual : FoundRow :=
  ⟨2, "b.py:C.bbb", "bbb", "method", "b.py", 3, 4, 5, none, none,
    "xfoo2", "qualified"⟩

/-- C6 counterexample: the claim orders a quality bucket by alias_type as
`canonical < qualified < simple < import`.  The SQL orders by the raw
`alias_type` string, where `"import" < "qualified"`, so on `exDB6` the
`import`-typed row precedes the `qualified`-typed row: the output is not
ordered the way the claim states. -/
theorem c6_counterexample :
    find_symbols_by_alias exDB6 "foo" 50 none = [exRow6imp, exRow6qual] ∧
    ¬ c6_claim_rel "foo" exRow6imp exRow6qual := by
  constructor
  · decide
  · decide

/-- C6 amended: `find_symbols_by_alias` output is ordered by match quality
(exact, then case-insensitive prefix, then substring) and, within a bucket,
by the raw `alias_type` string in lexicographic order — which places the four
types as `canonical < import < qualified < simple` — then by symbol name. -/
theorem c6_amended (db : DB) (q : String) (limit : Nat)
    (context_file : Option String) :
    (find_symbols_by_alias db q limit context_file).Pairwise (c6rel q) := by
  unfold find_symbols_by_alias
  exact List.Pairwise.sublist (List.take_sublist _ _)
    (List.sorted_insertionSort (c6rel q) _)

/-- C7 counterexample: the claim says a returned symbol satisfies
`line ≤ L ≤ max(line, end_line)`.  Import symbols are stored with
`end_line = 0`, and the SQL treats `end_line = 0` as open-ended: on `exDB7`
the lookup at line 7 returns the import declared at line 5, although
`max(5, 0) = 5 < 7`. -/
theorem c7_counterexample :
    find_symbol_at_location exDB7 "a.py" 7 = some exSym7 ∧
    ¬ (7 ≤ max exSym7.line exSym7.end_line) := by
  constructor
  · decide
  · decide

/-- C7 amended: a returned symbol `S` is a stored row with `S.file = F`,
`S.line ≤ L`, and `S.end_line = 0 ∨ L ≤ S.end_line` (a zero `end_line` is
open-ended), and it is innermost: every covering row `T` has
`T.line < S.line`, or `T.line = S.line` and `T.column ≤ S.column`.  The
lookup yields `none` exactly when no row satisfies the cover condition. -/
theorem c7_amended (db : DB) (F : String) (L : Nat) :
    (∀ S, find_symbol_at_location db F L = some S →
      S ∈ db.symbols ∧ S.file = F ∧ S.line ≤ L ∧
        (S.end_line = 0 ∨ L ≤ S.end_line) ∧
        ∀ T ∈ db.symbols, T.file = F → T.line ≤ L →
          (T.end_line = 0 ∨ L ≤ T.end_line) →
          (T.line < S.line ∨ (T.line = S.line ∧ T.column ≤ S.column))) ∧
    (find_symbol_at_location db F L = none ↔
      db.symbols.filter (coversLoc F L) = []) := by
  constructor
  · intro S hS
    unfold find_symbol_at_location at hS
    cases hsort : (db.symbols.filter (coversLoc F L)).insertionSort locGe with
    | nil => rw [hsort] at hS; exact absurd hS (by simp)
    | cons S0 tail =>
      rw [hsort] at hS
      simp only [List.head?_cons, Option.some.injEq] at hS
      subst hS
      have hmemS : S0 ∈ db.symbols.filter (coversLoc F L) := by
        have : S0 ∈ (db.symbols.filter (coversLoc F L)).insertionSort locGe := by
          rw [hsort]; exact List.mem_cons_self _ _
        exact (List.mem_insertionSort locGe).mp this
      have hSmem := (List.mem_filter.mp hmemS).1
      have hScov := (List.mem_filter.mp hmemS).2
      have hcov : S0.file = F ∧ S0.line ≤ L ∧
          (S0.end_line = 0 ∨ L ≤ S0.end_line) := by
        simp only [coversLoc, Bool.and_eq_true, decide_eq_true_eq,
          Bool.or_eq_true] at hScov
        exact ⟨hScov.1.1, hScov.1.2, hScov.2⟩
      refine ⟨hSmem, hcov.1, hcov.2.1, hcov.2.2, ?_⟩
      intro T hT hTf hTl hTe
      have hTmem : T ∈ db.symbols.filter (coversLoc F L) := by
        refine List.mem_filter.mpr ⟨hT, ?_⟩
        simp only [coversLoc, Bool.and_eq_true, decide_eq_true_eq,
          Bool.or_eq_true]
        exact ⟨⟨hTf, hTl⟩, hTe⟩
      have hTsort : T ∈ S0 :: tail := by
        rw [← hsort]; exact (List.mem_insertionSort locGe).mpr hTmem
      rcases List.mem_cons.mp hTsort with hTeq | hTtail
      · subst hTeq
        exact Or.inr ⟨rfl, le_refl _⟩
      · have hsorted := List.sorted_insertionSort locGe
          (db.symbols.filter (coversLoc F L))
        rw [hsort] at hsorted
        have hrel : locGe S0 T :=
          List.rel_of_sorted_cons hsorted T hTtail
        have hi := (lexCombine_iff natLt natLe natLt_irrefl natLt_connex
          (T.line, T.column) (S0.line, S0.column)).mp hrel
        simpa [natLt, natLe] using hi
  · constructor
    · intro h
      unfold find_symbol_at_location at h
      have hnil : (db.symbols.filter (coversLoc F L)).insertionSort locGe = [] := by
        cases hsort : (db.symbols.filter (coversLoc F L)).insertionSort locGe with
        | nil => rfl
        | cons a tail => rw [hsort] at h; exact absurd h (by simp)
      have := congrArg List.length hnil
      rw [List.length_insertionSort] at this
      exact List.eq_nil_of_length_eq_zero this
    · intro h
      unfold find_symbol_at_location
      rw [h]
      rfl

/-- C7 witness: the amended guarantees evaluated at the concrete lookup on
`exDB7`. -/
theorem c7_amended_witness :
    exSym7 ∈ exDB7.symbols ∧ exSym7.file = "a.py" ∧ exSym7.line ≤ 7 ∧
      (exSym7.end_line = 0 ∨ 7 ≤ exSym7.end_line) := by
  have h := (c7_amended exDB7 "a.py" 7).1 exSym7 (by decide)
  exact ⟨h.1, h.2.1, h.2.2.1, h.2.2.2.1⟩

/-- The `(from_id, to_id, edge_type)` primary key of an edge row. -/
def edgeKey (e : EdgeRow) : Nat × Nat × String := (e.from_id, e.to_id, e.edge_type)

/-- The edge-relation invariants of the spec: primary-key uniqueness, no
self-loops, and referential integrity of both endpoints. -/
def edgesInvariant (db : DB) : Prop :=
  (db.edges.map edgeKey).Nodup ∧
  ∀ e ∈ db.edges, e.from_id ≠ e.to_id ∧
    (∃ s ∈ db.symbols, s.id = e.from_id) ∧ (∃ s ∈ db.symbols, s.id = e.to_id)

theorem edgeInsertStep_nodup (acc : List EdgeRow) (t : EdgeRow)
    (h : (acc.map edgeKey).Nodup) : ((edgeInsertStep acc t).map edgeKey).Nodup := by
  unfold edgeInsertStep
  split
  · exact h
  case isFalse hany =>
    rw [List.map_append, List.nodup_append]
    refine ⟨h, List.nodup_singleton _, ?_⟩
    intro k hk hk2
    simp only [List.map_cons, List.map_nil, List.mem_singleton] at hk2
    subst hk2
    obtain ⟨r, hr, hkey⟩ := List.mem_map.mp hk
    apply hany
    refine List.any_eq_true.mpr ⟨r, hr, ?_⟩
    have h1 := congrArg (fun k => k.1) hkey
    have h2 := congrArg (fun k => k.2.1) hkey
    have h3 := congrArg (fun k => k.2.2) hkey
    simp only [edgeKey] at h1 h2 h3
    simp [h1, h2, h3]

theorem foldl_edgeInsert_nodup (tuples : List EdgeRow) :
    ∀ acc, (acc.map edgeKey).Nodup →
      ((tuples.foldl edgeInsertStep acc).map edgeKey).Nodup := by
  induction tuples with
  | nil => intro acc h; exact h
  | cons t rest ih =>
    intro acc h
    rw [List.foldl_cons]
    exact ih _ (edgeInsertStep_nodup acc t h)

theorem foldl_edgeInsert_mem (tuples : List EdgeRow) :
    ∀ acc e, e ∈ tuples.foldl edgeInsertStep acc → e ∈ acc ∨ e ∈ tuples := by
  induction tuples with
  | nil => intro acc e h; exact Or.inl h
  | cons t rest ih =>
    intro acc e h
    rw [List.foldl_cons] at h
    rcases ih _ e h with h2 | h2
    · unfold edgeInsertStep at h2
      split at h2
      · exact Or.inl h2
      · rcases List.mem_append.mp h2 with h3 | h3
        · exact Or.inl h3
        · simp only [List.mem_singleton] at h3
          exact Or.inr (h3 ▸ List.mem_cons_self t rest)
    · exact Or.inr (List.mem_cons_of_mem t h2)

theorem find_row_mem (db : DB) (q : String) (lim : Nat) (cf : Option String)
    (r : FoundRow) (h : r ∈ find_symbols_by_alias db q lim cf) :
    ∃ s ∈ db.symbols, s.id = r.id ∧ s.file = r.file ∧ s.kind = r.kind := by
  unfold find_symbols_by_alias at h
  have h1 := List.mem_of_mem_take h
  rw [List.mem_insertionSort] at h1
  rw [List.mem_dedup] at h1
  obtain ⟨p, hp, hmk⟩ := List.mem_map.mp h1
  have hp2 := (List.mem_filter.mp hp).1
  obtain ⟨s, hs, hpair⟩ := List.mem_flatMap.mp hp2
  obtain ⟨a, _, hpa⟩ := List.mem_map.mp hpair
  refine ⟨s, hs, ?_⟩
  rw [← hmk, ← hpa]
  exact ⟨rfl, rfl, rfl⟩

theorem resolve_some_mem (db : DB) (name : String) (cf : Option String)
    (i : Nat) (h : resolve_symbol_id_by_alias db name cf = some i) :
    ∃ s ∈ db.symbols, s.id = i := by
  unfold resolve_symbol_id_by_alias at h
  split at h
  · exact absurd h (by simp)
  · split at h
    · exact absurd h (by simp)
    case h_2 m rest heq =>
      obtain ⟨s, hs, hsid, _, _⟩ := find_row_mem db name 1 cf m
        (heq ▸ List.mem_cons_self m rest)
      simp only [Option.some.injEq] at h
      exact ⟨s, hs, h ▸ hsid⟩

theorem resolveEdgeTuple_good (db : DB) (e : PEdge) (t : EdgeRow)
    (h : resolveEdgeTuple db e = some t) :
    t.from_id ≠ t.to_id ∧ (∃ s ∈ db.symbols, s.id = t.from_id) ∧
      (∃ s ∈ db.symbols, s.id = t.to_id) := by
  unfold resolveEdgeTuple at h
  cases hf : resolve_symbol_id_by_alias db e.from_symbol e.from_file with
  | none => rw [hf] at h; exact absurd h (by simp)
  | some f =>
    cases ht : resolve_symbol_id_by_alias db e.to_symbol e.to_file with
    | none => rw [hf, ht] at h; exact absurd h (by simp)
    | some t0 =>
      rw [hf, ht] at h
      dsimp only at h
      by_cases hcond : f ≠ 0 ∧ t0 ≠ 0 ∧ f ≠ t0
      · rw [if_pos hcond] at h
        obtain ⟨ty, _, hmk⟩ := Option.map_eq_some'.mp h
        have hfrom : t.from_id = f := by rw [← hmk]
        have hto : t.to_id = t0 := by rw [← hmk]
        refine ⟨?_, ?_, ?_⟩
        · rw [hfrom, hto]; exact hcond.2.2
        · rw [hfrom]; exact resolve_some_mem db e.from_symbol e.from_file f hf
        · rw [hto]; exact resolve_some_mem db e.to_symbol e.to_file t0 ht
      · rw [if_neg hcond] at h
        exact absurd h (by simp)

theorem groupInsert_mem {κ α : Type} [DecidableEq κ] :
    ∀ (acc : List (κ × List α)) (k : κ) (y : α) (g : κ × List α),
    g ∈ groupInsert acc k y → ∀ x ∈ g.2,
    (∃ g0 ∈ acc, g0.1 = g.1 ∧ x ∈ g0.2) ∨ (x = y ∧ g.1 = k)
  | [], k, y, g => by
    intro hg x hx
    simp only [groupInsert, List.mem_singleton] at hg
    subst hg
    simp only [List.mem_singleton] at hx
    exact Or.inr ⟨hx, rfl⟩
  | (k0, xs) :: rest, k, y, g => by
    intro hg x hx
    simp only [groupInsert] at hg
    split at hg
    case isTrue hk =>
      rcases List.mem_cons.mp hg with hg1 | hg1
      · subst hg1
        rcases List.mem_append.mp hx with hx1 | hx1
        · exact Or.inl ⟨(k0, xs), List.mem_cons_self _ _, rfl, hx1⟩
        · simp only [List.mem_singleton] at hx1
          exact Or.inr ⟨hx1, hk⟩
      · exact Or.inl ⟨g, List.mem_cons_of_mem _ hg1, rfl, hx⟩
    case isFalse hk =>
      rcases List.mem_cons.mp hg with hg1 | hg1
      · subst hg1
        exact Or.inl ⟨(k0, xs), List.mem_cons_self _ _, rfl, hx⟩
      · rcases groupInsert_mem rest k y g hg1 x hx with ⟨g0, hg0, he, hxg0⟩ | hr
        · exact Or.inl ⟨g0, List.mem_cons_of_mem _ hg0, he, hxg0⟩
        · exact Or.inr hr

theorem groupByKey_sound {κ α : Type} [DecidableEq κ] (key : α → κ)
    (P : α → Prop) :
    ∀ (l : List α) (acc : List (κ × List α)),
    (∀ g ∈ acc, ∀ x ∈ g.2, key x = g.1 ∧ P x) → (∀ y ∈ l, P y) →
    ∀ g ∈ l.foldl (fun a y => groupInsert a (key y) y) acc, ∀ x ∈ g.2,
      key x = g.1 ∧ P x
  | [], acc => by
    intro hacc _ g hg x hx
    exact hacc g hg x hx
  | y :: l, acc => by
    intro hacc hl g hg x hx
    rw [List.foldl_cons] at hg
    refine groupByKey_sound key P l (groupInsert acc (key y) y) ?_
      (fun z hz => hl z (List.mem_cons_of_mem y hz)) g hg x hx
    intro g2 hg2 x2 hx2
    rcases groupInsert_mem acc (key y) y g2 hg2 x2 hx2 with ⟨g0, hg0, he, hx0⟩ | ⟨hxy, hgk⟩
    · have := hacc g0 hg0 x2 hx0
      exact ⟨he ▸ this.1, this.2⟩
    · subst hxy
      exact ⟨hgk.symm ▸ rfl, hl x2 (List.mem_cons_self x2 l)⟩

theorem groupByKey_mem {κ α : Type} [DecidableEq κ] (key : α → κ) (l : List α)
    (g : κ × List α) (hg : g ∈ groupByKey key l) (x : α) (hx : x ∈ g.2) :
    key x = g.1 ∧ x ∈ l :=
  groupByKey_sound key (· ∈ l) l [] (by simp) (fun _ hy => hy) g hg x hx

theorem mem_zip_idx {α β : Type} :
    ∀ (xs : List α) (ys : List β) (p : α × β), p ∈ xs.zip ys →
    ∃ i, ∃ hx : i < xs.length, ∃ hy : i < ys.length,
      xs[i] = p.1 ∧ ys[i] = p.2
  | [], _, p => by intro h; simp [List.zip] at h
  | _ :: _, [], p => by intro h; simp [List.zip] at h
  | x :: xs, y :: ys, p => by
    intro h
    rcases List.mem_cons.mp h with he | ht
    · subst he
      exact ⟨0, Nat.succ_pos _, Nat.succ_pos _, rfl, rfl⟩
    · obtain ⟨i, hx, hy, h1, h2⟩ := mem_zip_idx xs ys p ht
      refine ⟨i + 1, ?_, ?_, by simpa using h1, by simpa using h2⟩
      · simp only [List.length_cons]; omega
      · simp only [List.length_cons]; omega

/-- The identity-relevant columns of a symbol row. -/
def symKey3 (s : SymRow) : Nat × String × String := (s.id, s.file, s.kind)

theorem patchFold_map {β : Type} (f : SymRow → β)
    (hf : ∀ (s : SymRow) (p : Nat), f { s with parent_id := some p } = f s) :
    ∀ (updates : List (Nat × Nat)) (syms : List SymRow),
    (updates.foldl (fun sy u => sy.map (fun s =>
      if s.id = u.2 then { s with parent_id := some u.1 } else s)) syms).map f
      = syms.map f
  | [], _ => rfl
  | u :: updates, syms => by
    rw [List.foldl_cons, patchFold_map f hf updates _, List.map_map]
    apply List.map_congr_left
    intro s _
    simp only [Function.comp_apply]
    split
    · exact hf s u.1
    · rfl

theorem buildDb3_snd (root : String) (syms : List PSymbol) (db0 : DB) :
    (buildDb3 root syms db0).2 =
      (List.range syms.length).map (fun i => db0.nextId + i) := by
  unfold buildDb3 insert_symbols_bulk
  simp

theorem buildDb3_edges (root : String) (syms : List PSymbol) (db0 : DB)
    (h0 : db0.edges = []) : (buildDb3 root syms db0).1.edges = [] := by
  unfold buildDb3 insert_symbols_bulk insert_aliases_bulk patchParents
  simpa using h0

theorem buildDb3_symbols_map (root : String) (syms : List PSymbol) (db0 : DB)
    (h0 : db0.symbols = []) :
    ((buildDb3 root syms db0).1.symbols).map symKey3 =
      List.zipWith (fun (ps : PSymbol) i => (i, relTo root ps.file, ps.kind))
        syms (buildDb3 root syms db0).2 := by
  unfold buildDb3 insert_symbols_bulk insert_aliases_bulk patchParents
  simp only [h0, List.nil_append]
  rw [patchFold_map symKey3 (fun _ _ => rfl)]
  rw [List.map_zipWith, List.zipWith_map_left]
  rfl

theorem map_fst_zipWith_pair {α β γ : Type} (g : α → γ) :
    ∀ (as : List α) (bs : List β), as.length = bs.length →
    (List.zipWith (fun a b => ((b, g a) : β × γ)) as bs).map Prod.fst = bs
  | [], [], _ => rfl
  | [], _ :: _, h => by simp at h
  | _ :: _, [], h => by simp at h
  | a :: as, b :: bs, h => by
    simp only [List.zipWith_cons_cons, List.map_cons]
    rw [map_fst_zipWith_pair g as bs (by simpa using h)]

theorem buildDb3_ids_len (root : String) (syms : List PSymbol) (db0 : DB) :
    (buildDb3 root syms db0).2.length = syms.length := by
  rw [buildDb3_snd]
  simp

theorem buildDb3_id_map (root : String) (syms : List PSymbol) (db0 : DB)
    (h0 : db0.symbols = []) :
    ((buildDb3 root syms db0).1.symbols).map (fun s => s.id) =
      (buildDb3 root syms db0).2 := by
  have h1 : (fun (s : SymRow) => s.id) = Prod.fst ∘ symKey3 := rfl
  rw [h1, ← List.map_map, buildDb3_symbols_map root syms db0 h0]
  exact map_fst_zipWith_pair (fun ps => (relTo root ps.file, ps.kind)) syms
    (buildDb3 root syms db0).2 (buildDb3_ids_len root syms db0).symm

theorem buildDb3_id_nodup (root : String) (syms : List PSymbol) (db0 : DB)
    (h0 : db0.symbols = []) :
    (((buildDb3 root syms db0).1.symbols).map (fun s => s.id)).Nodup := by
  rw [buildDb3_id_map root syms db0 h0, buildDb3_snd]
  refine List.Nodup.map ?_ (List.nodup_range syms.length)
  intro a b hab
  simp only at hab
  omega

theorem buildDb3_row_at (root : String) (syms : List PSymbol) (db0 : DB)
    (h0 : db0.symbols = []) (i : Nat) (hi : i < syms.length)
    (hx : i < (buildDb3 root syms db0).2.length) :
    ∃ s ∈ (buildDb3 root syms db0).1.symbols,
      s.id = (buildDb3 root syms db0).2[i] ∧
      s.file = relTo root syms[i].file ∧ s.kind = syms[i].kind := by
  have hmap := buildDb3_symbols_map root syms db0 h0
  have hiz : i < (List.zipWith
      (fun (ps : PSymbol) j => (j, relTo root ps.file, ps.kind)) syms
      (buildDb3 root syms db0).2).length := by
    rw [List.length_zipWith]
    omega
  have helem : (List.zipWith
      (fun (ps : PSymbol) j => (j, relTo root ps.file, ps.kind)) syms
      (buildDb3 root syms db0).2)[i] =
      ((buildDb3 root syms db0).2[i], relTo root syms[i].file,
        syms[i].kind) := by
    rw [List.getElem_zipWith]
  have hmem : ((buildDb3 root syms db0).2[i], relTo root syms[i].file,
      syms[i].kind) ∈ ((buildDb3 root syms db0).1.symbols).map symKey3 := by
    rw [hmap, ← helem]
    exact List.getElem_mem hiz
  obtain ⟨s, hs, hkey⟩ := List.mem_map.mp hmem
  refine ⟨s, hs, ?_, ?_, ?_⟩
  · exact congrArg Prod.fst hkey
  · exact congrArg (fun p => p.2.1) hkey
  · exact congrArg (fun p => p.2.2) hkey

theorem pipeline_edges_invariant (root : String) (syms : List PSymbol)
    (pedges : List PEdge) (db0 : DB) (h0s : db0.symbols = [])
    (h0e : db0.edges = []) :
    edgesInvariant
      (insert_edges_bulk (buildDb3 root syms db0).1
        (buildTuples (buildDb3 root syms db0).1 root syms
          (buildDb3 root syms db0).2 pedges)) := by
  have he0 : (buildDb3 root syms db0).1.edges = [] :=
    buildDb3_edges root syms db0 h0e
  constructor
  · show (((buildTuples (buildDb3 root syms db0).1 root syms
        (buildDb3 root syms db0).2 pedges).foldl edgeInsertStep
        (buildDb3 root syms db0).1.edges).map edgeKey).Nodup
    apply foldl_edgeInsert_nodup
    rw [he0]
    exact List.nodup_nil
  · intro e hmem
    have h2 := foldl_edgeInsert_mem _ _ e hmem
    rw [he0] at h2
    rcases h2 with h2 | h2
    · cases h2
    · unfold buildTuples at h2
      rw [List.mem_dedup] at h2
      rcases List.mem_append.mp h2 with h3 | h3
      · obtain ⟨pe, _, hres⟩ := List.mem_filterMap.mp h3
        exact resolveEdgeTuple_good (buildDb3 root syms db0).1 pe e hres
      · unfold create_cross_file_edges at h3
        obtain ⟨g, hg, h4⟩ := List.mem_flatMap.mp h3
        obtain ⟨pr, hpr, h5⟩ := List.mem_filterMap.mp h4
        cases hfm : (find_symbols_by_alias (buildDb3 root syms db0).1
            pr.1.name 10 none).find? (fun m =>
            (m.kind = "class" || m.kind = "function") && m.file ≠ g.1) with
        | none => rw [hfm] at h5; exact absurd h5 (by simp)
        | some m =>
          rw [hfm] at h5
          simp only [Option.some.injEq] at h5
          subst h5
          have hm_mem : m ∈ find_symbols_by_alias (buildDb3 root syms db0).1
              pr.1.name 10 none := List.mem_of_find?_eq_some hfm
          have hm_pred := List.find?_some hfm
          have hm_file : m.file ≠ g.1 := by
            simp only [Bool.and_eq_true, decide_eq_true_eq] at hm_pred
            exact hm_pred.2
          obtain ⟨sm, hsm, hsmid, hsmfile, _⟩ :=
            find_row_mem (buildDb3 root syms db0).1 pr.1.name 10 none m hm_mem
          have hprmem : pr ∈ g.2 := (List.mem_filter.mp hpr).1
          have hgk := groupByKey_mem (fun pr => relTo root pr.1.file)
            (syms.zip (buildDb3 root syms db0).2) g hg pr hprmem
          obtain ⟨i, hxi, hyi, hsi, hii⟩ :=
            mem_zip_idx syms (buildDb3 root syms db0).2 pr hgk.2
          obtain ⟨si, hsi_mem, hsi_id, hsi_file, _⟩ :=
            buildDb3_row_at root syms db0 h0s i hxi hyi
          refine ⟨?_, ⟨si, hsi_mem, ?_⟩, ⟨sm, hsm, ?_⟩⟩
          · show pr.2 ≠ m.id
            intro heq
            have hid_eq : si.id = sm.id := by
              rw [hsi_id, hii, heq, hsmid]
            have hsi_eq_sm : si = sm :=
              List.inj_on_of_nodup_map
                (buildDb3_id_nodup root syms db0 h0s) hsi_mem hsm hid_eq
            have hkey1 : relTo root pr.1.file = g.1 := hgk.1
            apply hm_file
            rw [← hsmfile, ← hsi_eq_sm, hsi_file, hsi, hkey1]
          · show si.id = pr.2
            rw [hsi_id, hii]
          · exact hsmid

/-- C8: after every run of the indexing pipeline over a cleared store, every
row of the `edges` relation joins two existing `symbols` rows, has distinct
endpoints, and no two rows share the `(from_id, to_id, edge_type)` key:
endpoint resolution only returns stored ids, the insertion filter drops
`from_id = to_id`, cross-file import edges link rows with different files
(hence different ids), and `INSERT OR IGNORE` under the primary key
deduplicates. -/
theorem c8_edge_invariants (root : String) (parses : List ParseOutcome)
    (db0 : DB) :
    edgesInvariant (build_index_core root parses (clearDatabase db0)).2 := by
  unfold build_index_core
  by_cases hp : parses.isEmpty
  · simp only [hp, if_true]
    exact ⟨by simp [clearDatabase], by simp [clearDatabase]⟩
  · simp only [hp, Bool.false_eq_true, if_false]
    exact pipeline_edges_invariant root (processParses parses).symbols
      (processParses parses).edges (clearDatabase db0) rfl rfl

/-- C8 witness: the invariants evaluated on a concrete one-file build. -/
theorem c8_edge_invariants_witness :
    edgesInvariant (build_index_core "r" [exParseOne]
      (clearDatabase exEmptyDB)).2 :=
  c8_edge_invariants "r" [exParseOne] exEmptyDB
